import Mathlib

/-!
Shallow embedding of the block-editor engine of this repository
(a Notion-style block editor, Phase 1).

Sources embedded here:
- `types/richText.ts`, `types/block.ts`, `types/editor.ts` — the data model
  (`Mark`, `RichText`, `Block`, `Document`);
- `utils/blockUtils.ts` — the factories `createParagraphBlock`,
  `createHeadingBlock` and `plainTextToRichText` / `richTextToPlainText`;
- `store/editorStore.ts` — the store actions `updateBlockContent`,
  `createBlock`, `deleteBlock`, `mergeBlockWithPrevious`, `splitBlock`;
- the history slice `createHistorySlice` (`pushHistory`, `commitBatch`,
  `undo`) from the repository's technical specification document.

Modelling conventions:
- JavaScript strings are Lean `String`s; `s.slice(0, k)` / `s.slice(k)` for
  `0 ≤ k` are `List.take` / `List.drop` on the character data (JS clamps an
  offset past the end, exactly as `take`/`drop` do).
- A JS object used as a map (`Record<BlockId, Block>`) is an association
  list with unique keys; `{...m, [k]: v}` replaces the binding of `k` (or
  appends a fresh one) and `const { [k]: _, ...rest }` drops it.
- `Date.now()` readings and generated `nanoid` identifiers are passed as
  explicit arguments (`now`, `newId`): the embedding makes the ambient
  effects of the source explicit.
- Zustand's `set`/`get` thread the state; each action becomes a function
  from the old state (plus its arguments) to the new state.  An action's
  TypeScript return value, when any, is returned alongside the state.
-/

namespace NotionEditor

/-- Block identifiers are opaque strings (`type BlockId = string`). -/
abbrev BlockId := String

/-- The `type` field of a `Mark` (`types/richText.ts`). -/
inductive MarkType where
  | bold
  | italic
  | underline
  | strikethrough
  | code
  | link
  deriving DecidableEq

/-- A formatting mark: `{ type; attrs?: { href?: string } }`.  The optional
`attrs.href` is flattened into an optional field. -/
structure Mark where
  type : MarkType
  href : Option String := none
  deriving DecidableEq

/-- A rich-text run: `{ text: string; marks: Mark[] }`. -/
structure RichText where
  text : String
  marks : List Mark
  deriving DecidableEq

/-- The `type` discriminant of the Phase-1 `Block` union
(`type Block = ParagraphBlock | HeadingBlock`). -/
inductive BlockType where
  | paragraph
  | heading1
  | heading2
  | heading3
  deriving DecidableEq

/-- A block record.  The TS union `ParagraphBlock | HeadingBlock` has the
same fields in every variant (both carry `content`), so it is embedded as a
single record tagged by `BlockType`. -/
structure Block where
  id : BlockId
  type : BlockType
  content : List RichText
  children : List BlockId
  createdAt : Nat
  updatedAt : Nat
  deriving DecidableEq

/-- The document: root order plus the normalized flat block store
(`types/block.ts`).  The `blocks` record is an association list. -/
structure Document where
  id : String
  title : String
  rootBlockIds : List BlockId
  blocks : List (BlockId × Block)
  createdAt : Nat
  updatedAt : Nat
  deriving DecidableEq

/-- Lookup in the `blocks` record: `document.blocks[blockId]`, `undefined`
becoming `none`. -/
def getBlock : List (BlockId × Block) → BlockId → Option Block
  | [], _ => none
  | (k, v) :: rest, i => if k = i then some v else getBlock rest i

/-- Write into the `blocks` record: `{...blocks, [id]: b}` — replaces the
existing binding of `id` (keys of a JS object are unique) or appends a new
one. -/
def setBlock : List (BlockId × Block) → BlockId → Block → List (BlockId × Block)
  | [], i, b => [(i, b)]
  | (k, v) :: rest, i, b =>
    if k = i then (i, b) :: rest else (k, v) :: setBlock rest i b

/-- Removal from the `blocks` record:
`const { [blockId]: _, ...remaining } = blocks`. -/
def removeBlock (bs : List (BlockId × Block)) (i : BlockId) : List (BlockId × Block) :=
  bs.filter (fun p => p.1 != i)

/-- The JS `Array.prototype.indexOf`, with `none` for the `-1` sentinel. -/
def jsIndexOf : List String → String → Option Nat
  | [], _ => none
  | x :: xs, a => if x = a then some 0 else (jsIndexOf xs a).map (· + 1)

/-- The JS `array.filter((id) => id !== a)` on a list of identifiers. -/
def jsRemoveAll (l : List String) (a : String) : List String :=
  l.filter (fun x => x != a)

/-- The JS `s.slice(0, k)` for a non-negative offset `k` (JS clamps `k` past the
end of the string, as `take` does). -/
def jsSliceTo (s : String) (k : Nat) : String := ⟨s.data.take k⟩

/-- The JS `s.slice(k)` for a non-negative offset `k`. -/
def jsSliceFrom (s : String) (k : Nat) : String := ⟨s.data.drop k⟩

/-- The JS `array.join("")` on a list of strings: left-to-right concatenation. -/
def jsJoin : List String → String
  | [] => ""
  | s :: rest => s ++ jsJoin rest

/-- From `utils/richTextUtils.ts`: `content.map((rt) => rt.text).join("")`.
Both the util and the inline copies in `splitBlock` compute this. -/
def richTextToPlainText (content : List RichText) : String :=
  jsJoin (content.map (·.text))

/-- From `utils/richTextUtils.ts`: `if (!text) return []; return
[{ text, marks: [] }]` — the empty string is falsy.  `splitBlock` and the
block factories inline the same conditional. -/
def plainTextToRichText (text : String) : List RichText :=
  if text = "" then [] else [⟨text, []⟩]

/-- The repeated store guard
`block.type === "paragraph" || block.type.startsWith("heading")`.
Every Phase-1 block kind satisfies it. -/
def isTextBearing : BlockType → Bool
  | .paragraph => true
  | .heading1 => true
  | .heading2 => true
  | .heading3 => true

/-- From `utils/blockUtils.ts`: `createParagraphBlock(text?)`.  The
generated `nanoid` and the `Date.now()` reading are explicit arguments;
the omitted optional text is the (falsy) empty string. -/
def createParagraphBlock (id : BlockId) (text : String) (now : Nat) : Block :=
  { id := id
    type := .paragraph
    content := plainTextToRichText text
    children := []
    createdAt := now
    updatedAt := now }

/-- From `utils/blockUtils.ts`: `createHeadingBlock(level, text?)` with
`type = "heading" + level` for `level ∈ {1,2,3}`. -/
def createHeadingBlock (id : BlockId) (level : Nat) (text : String) (now : Nat) : Block :=
  { id := id
    type := match level with
      | 1 => .heading1
      | 2 => .heading2
      | _ => .heading3
    content := plainTextToRichText text
    children := []
    createdAt := now
    updatedAt := now }

/-- From `utils/blockUtils.ts` (current version): `createEmptyDocument()`
builds a document holding a single empty paragraph block. -/
def createEmptyDocument (docId bId : String) (now : Nat) : Document :=
  { id := docId
    title := "Untitled"
    rootBlockIds := [bId]
    blocks := [(bId, createParagraphBlock bId "" now)]
    createdAt := now
    updatedAt := now }

/-- Store action `updateBlockContent(blockId, content)`
(`store/editorStore.ts`): replaces a text-bearing block's content verbatim
and refreshes the block and document timestamps; silently does nothing when
the identifier does not resolve. -/
def updateBlockContent (doc : Document) (blockId : BlockId)
    (content : List RichText) (now : Nat) : Document :=
  match getBlock doc.blocks blockId with
  | none => doc
  | some block =>
    if isTextBearing block.type then
      { doc with
        blocks := setBlock doc.blocks blockId
          { block with content := content, updatedAt := now }
        updatedAt := now }
    else doc

/-- Store action `createBlock(afterBlockId, type)`
(`store/editorStore.ts`).  Returns the new block's identifier together with
the updated document.  When `afterBlockId` is `null` the new block is
appended; when it does not resolve in `rootBlockIds` the source comment
says "If afterBlockId not found, append to end" — and that is what the
code does. -/
def createBlock (doc : Document) (afterBlockId : Option BlockId)
    (type : BlockType) (now : Nat) (newId : BlockId) : BlockId × Document :=
  let newBlock : Block :=
    match type with
    | .paragraph => createParagraphBlock newId "" now
    | .heading1 => createHeadingBlock newId 1 "" now
    | .heading2 => createHeadingBlock newId 2 "" now
    | .heading3 => createHeadingBlock newId 3 "" now
  let newRootBlockIds : List BlockId :=
    match afterBlockId with
    | none => doc.rootBlockIds ++ [newId]
    | some afterId =>
      match jsIndexOf doc.rootBlockIds afterId with
      | some index =>
        doc.rootBlockIds.take (index + 1) ++ newId :: doc.rootBlockIds.drop (index + 1)
      | none => doc.rootBlockIds ++ [newId]
  (newId,
    { doc with
      blocks := setBlock doc.blocks newId newBlock
      rootBlockIds := newRootBlockIds
      updatedAt := now })

/-- Store action `deleteBlock(blockId)` (`store/editorStore.ts`): refuses
(returning the state unchanged) when only one root block remains; otherwise
drops the binding from the block record, filters the identifier out of the
root order, and refreshes `updatedAt` — even when `blockId` resolved to
nothing. -/
def deleteBlock (doc : Document) (blockId : BlockId) (now : Nat) : Document :=
  if doc.rootBlockIds.length ≤ 1 then doc
  else
    { doc with
      blocks := removeBlock doc.blocks blockId
      rootBlockIds := jsRemoveAll doc.rootBlockIds blockId
      updatedAt := now }

/-- Store action `mergeBlockWithPrevious(blockId)`
(`store/editorStore.ts`): a no-op unless `blockId` sits at a positive index
of `rootBlockIds` (`currentIndex <= 0` covers both the `-1` sentinel and
the first position); then, when both blocks resolve and are text-bearing,
the previous block receives the concatenated content and the current block
is removed.  The impossible `get?` fallback mirrors
`rootBlockIds[currentIndex - 1]`, which is always defined there. -/
def mergeBlockWithPrevious (doc : Document) (blockId : BlockId) (now : Nat) : Document :=
  match jsIndexOf doc.rootBlockIds blockId with
  | none => doc
  | some 0 => doc
  | some (ci + 1) =>
    match doc.rootBlockIds.get? ci with
    | none => doc
    | some previousBlockId =>
      match getBlock doc.blocks previousBlockId, getBlock doc.blocks blockId with
      | some previousBlock, some currentBlock =>
        if isTextBearing previousBlock.type && isTextBearing currentBlock.type then
          { doc with
            blocks := setBlock (removeBlock doc.blocks blockId) previousBlockId
              { previousBlock with
                content := previousBlock.content ++ currentBlock.content
                updatedAt := now }
            rootBlockIds := jsRemoveAll doc.rootBlockIds blockId
            updatedAt := now }
        else doc
      | _, _ => doc

/-- Store action `splitBlock(blockId, offset)` (`store/editorStore.ts`).
Returns the TS return value (the new block's id, or `""` when the block
does not resolve) together with the updated document.  The text is
flattened to its plain-text projection, sliced at `offset`, and both
halves are rebuilt as unmarked runs; the new paragraph is inserted right
after the original in the root order.  When `blockId` has a block record
but is absent from `rootBlockIds` the `set` callback bails out, yet the
already-generated id is still returned. -/
def splitBlock (doc : Document) (blockId : BlockId) (offset : Nat)
    (now : Nat) (newId : BlockId) : BlockId × Document :=
  match getBlock doc.blocks blockId with
  | none => ("", doc)
  | some block =>
    if isTextBearing block.type then
      let fullText := richTextToPlainText block.content
      let beforeText := jsSliceTo fullText offset
      let afterText := jsSliceFrom fullText offset
      let newBlock := createParagraphBlock newId afterText now
      match jsIndexOf doc.rootBlockIds blockId with
      | none => (newId, doc)
      | some currentIndex =>
        let updatedBlock :=
          { block with content := plainTextToRichText beforeText, updatedAt := now }
        (newId,
          { doc with
            blocks := setBlock (setBlock doc.blocks blockId updatedBlock) newId newBlock
            rootBlockIds := doc.rootBlockIds.take (currentIndex + 1)
              ++ newId :: doc.rootBlockIds.drop (currentIndex + 1)
            updatedAt := now })
    else ("", doc)

/-- A history entry of the history slice in the repository's technical
specification document: `{ document; timestamp; operationType }`.  The
`Selection` is not captured by that code. -/
structure HistoryEntry where
  document : Document
  timestamp : Nat
  operationType : String
  deriving DecidableEq

/-- The `HistoryState` of the history slice: the entry stack, the stack
pointer (initially `-1`, hence an integer), and the ring-buffer bound. -/
structure HistoryState where
  entries : List HistoryEntry
  currentIndex : Int
  maxEntries : Nat
  deriving DecidableEq

/-- The `pendingBatch` record of the history slice.  The `timeoutId`
handle is not part of the value semantics: the timer is modelled by the
explicit deadline event (`commitBatch`) of a run. -/
structure PendingBatch where
  blockId : String
  operationType : String
  deriving DecidableEq

/-- The slice of the store the history code touches: the live document,
the history state and the pending batch. -/
structure HistStore where
  document : Document
  history : HistoryState
  pendingBatch : Option PendingBatch
  deriving DecidableEq

/-- The JS `entries.slice(0, n)` for an integer `n`.  In every reachable history
state `currentIndex ≥ -1`, so the `n` used by the slice code is never
negative and `slice` agrees with `take`. -/
def jsTakeInt (l : List HistoryEntry) (n : Int) : List HistoryEntry :=
  l.take n.toNat

/-- The initial history slice state: `entries: [], currentIndex: -1,
maxEntries: 100`, no pending batch, over a given live document. -/
def initialHistStore (doc : Document) : HistStore :=
  { document := doc
    history := { entries := [], currentIndex := -1, maxEntries := 100 }
    pendingBatch := none }

/-- The action `commitBatch()` of the history slice: when a batch is pending, clears
its timer, snapshots the *current* live document (`structuredClone` is the
identity on values), pushes the entry after truncating the redo tail, and
closes the batch.  Note the source applies no `maxEntries` eviction on
this path. -/
def commitBatch (s : HistStore) (now : Nat) : HistStore :=
  match s.pendingBatch with
  | none => s
  | some pendingBatch =>
    let newEntry : HistoryEntry := ⟨s.document, now, pendingBatch.operationType⟩
    let entries := jsTakeInt s.history.entries (s.history.currentIndex + 1) ++ [newEntry]
    { s with
      history := { s.history with
        entries := entries
        currentIndex := (entries.length : Int) - 1 }
      pendingBatch := none }

/-- The action `pushHistory(operationType, options)` of the history slice.  The
batched path extends a same-key batch (only the timer is rescheduled),
or flushes the old batch and opens a new one.  The non-batched path
flushes any pending batch and then pushes an entry — computed, exactly as
in the source, from the `history` and `document` values destructured
*before* the flush, so a flushed entry is overwritten on this path. -/
def pushHistory (s : HistStore) (operationType : String) (batch : Bool)
    (blockId : Option String) (now : Nat) : HistStore :=
  match batch, blockId with
  | true, some bid =>
    match s.pendingBatch with
    | some pendingBatch =>
      if pendingBatch.blockId = bid ∧ pendingBatch.operationType = operationType then
        s
      else
        let s₁ := commitBatch s now
        { s₁ with pendingBatch := some ⟨bid, operationType⟩ }
    | none => { s with pendingBatch := some ⟨bid, operationType⟩ }
  | _, _ =>
    let history := s.history
    let document := s.document
    let s₁ := if s.pendingBatch.isSome then commitBatch s now else s
    let newEntry : HistoryEntry := ⟨document, now, operationType⟩
    let entries := jsTakeInt history.entries (history.currentIndex + 1) ++ [newEntry]
    let entries :=
      if (history.maxEntries : Int) < (entries.length : Int) then entries.drop 1 else entries
    { s₁ with
      history := { history with
        entries := entries
        currentIndex := (entries.length : Int) - 1 } }

/-- The action `undo()` of the history slice: flushes any pending batch, then — using
the `history` value destructured *before* the flush, as the source does —
steps the pointer back and restores that entry's document when the pointer
is past the earliest entry.  The impossible `get?` fallback mirrors
`entries[newIndex]`, defined whenever `0 < currentIndex ≤ entries.length - 1`. -/
def undoHistory (s : HistStore) (now : Nat) : HistStore :=
  let history := s.history
  let s₁ := if s.pendingBatch.isSome then commitBatch s now else s
  if history.currentIndex ≤ 0 then s₁
  else
    let newIndex := history.currentIndex - 1
    match history.entries.get? newIndex.toNat with
    | none => s₁
    | some entry =>
      { s₁ with
        document := entry.document
        history := { history with currentIndex := newIndex } }

/-- A text-edit history commit, as the spec's history state machine drives
it (spec §4.4, `commit(text-edit op, blockId)`): the edit is applied to the
live document and then recorded through the batched `pushHistory` path.
The slice itself takes the already-updated live document as its snapshot
source. -/
def textEditCommit (s : HistStore) (blockId : String) (editedDoc : Document)
    (now : Nat) : HistStore :=
  pushHistory { s with document := editedDoc } "typing" true (some blockId) now

/-- The spec's Tree-Operation error vocabulary (spec §7).  It appears
nowhere in the source code; it is declared here only to state claims about
signalled outcomes. -/
inductive TreeError where
  | Rejected
  | NotFound
  | CycleDetected
  | DepthExceeded
  | NotTextBearing
  deriving DecidableEq

/-- The complete observable result of the store action `deleteBlock`: the
updated document together with the value the action hands back to its
caller.  The TypeScript function's return type is `void` and it stores no
error value anywhere in the state, so the signalled outcome is uniformly
`none`. -/
def deleteBlockResult (doc : Document) (blockId : BlockId) (now : Nat) :
    Document × Option TreeError :=
  (deleteBlock doc blockId now, none)

/-- Modelled from the spec: the Mark Algebra `splitAt(runs, offset)` of
spec §4.1 — "two run sequences whose concatenated plain text equals the
original, split exactly at `offset`, with run boundaries realigned to that
offset even if it falls inside a run".  Marks are preserved on both sides.
No such function exists in the source; it is declared only to state what
"the before runs" of a rich-text sequence are. -/
def splitRunsAt : List RichText → Nat → List RichText × List RichText
  | [], _ => ([], [])
  | r :: rest, k =>
    if k = 0 then ([], r :: rest)
    else if k < r.text.length then
      ([⟨⟨r.text.data.take k⟩, r.marks⟩], ⟨⟨r.text.data.drop k⟩, r.marks⟩ :: rest)
    else if k = r.text.length then ([r], rest)
    else
      let p := splitRunsAt rest (k - r.text.length)
      (r :: p.1, p.2)

/-- Modelled from the spec: the run-normalization invariant of spec §3 —
"no two adjacent runs have identical format-sets (maximal merge); no run
has empty text except when the whole sequence is empty".  Stated as an
executable check; no such check exists in the source. -/
def normalizedRuns : List RichText → Bool
  | [] => true
  | [r] => r.text != ""
  | r₁ :: r₂ :: rest =>
    r₁.text != "" && r₁.marks != r₂.marks && normalizedRuns (r₂ :: rest)

/-- Erase the `createdAt`/`updatedAt` fields of a block (for statements
that compare operation outputs up to clock readings). -/
def stripBlockTimes (b : Block) : Block :=
  { b with createdAt := 0, updatedAt := 0 }

/-- Erase every timestamp of a document, block timestamps included. -/
def stripDocTimes (d : Document) : Document :=
  { d with
    blocks := d.blocks.map (fun p => (p.1, stripBlockTimes p.2))
    createdAt := 0
    updatedAt := 0 }

/-! Concrete instances used by counterexamples and witnesses. -/

/-- A paragraph block with plain text "hello world" (spec §8's
split-merge offset example). -/
def hwBlock : Block :=
  { id := "b0", type := .paragraph, content := [⟨"hello world", []⟩]
    children := [], createdAt := 0, updatedAt := 0 }

/-- A document whose sole root block is `hwBlock`. -/
def hwDoc : Document :=
  { id := "doc1", title := "Doc", rootBlockIds := ["b0"]
    blocks := [("b0", hwBlock)], createdAt := 0, updatedAt := 0 }

/-- A paragraph block carrying a bold mark across "ab". -/
def boldBlock : Block :=
  { id := "b0", type := .paragraph, content := [⟨"ab", [⟨.bold, none⟩]⟩]
    children := [], createdAt := 0, updatedAt := 0 }

/-- A document whose sole root block is `boldBlock`. -/
def boldDoc : Document :=
  { id := "doc2", title := "Doc", rootBlockIds := ["b0"]
    blocks := [("b0", boldBlock)], createdAt := 0, updatedAt := 0 }

/-- A two-root-block document (blocks `b1`, `b2`, both empty paragraphs). -/
def duoDoc : Document :=
  { id := "doc3", title := "Doc", rootBlockIds := ["b1", "b2"]
    blocks := [("b1", createParagraphBlock "b1" "" 0), ("b2", createParagraphBlock "b2" "" 0)]
    createdAt := 0, updatedAt := 0 }

/-- First root block of `childDoc`. -/
def childP : Block :=
  { id := "p", type := .paragraph, content := [⟨"x", []⟩]
    children := [], createdAt := 0, updatedAt := 0 }

/-- Second root block of `childDoc`; it has the child `k`. -/
def childC : Block :=
  { id := "c", type := .paragraph, content := [⟨"y", []⟩]
    children := ["k"], createdAt := 0, updatedAt := 0 }

/-- The child block of `childC`. -/
def childK : Block :=
  { id := "k", type := .paragraph, content := [⟨"z", []⟩]
    children := [], createdAt := 0, updatedAt := 0 }

/-- A document in which block `c` (second root block) has a child `k`:
root order `[p, c]`, block store `p`, `c` (with `children = [k]`) and `k`. -/
def childDoc : Document :=
  { id := "doc4", title := "Doc", rootBlockIds := ["p", "c"]
    blocks := [("p", childP), ("c", childC), ("k", childK)]
    createdAt := 0, updatedAt := 0 }

/-- A reachable document with a non-normalized run sequence: starting from
the empty document, type "ab" into the block, split at offset 1, and merge
the new sibling back. -/
def splitMergeDoc : Document :=
  mergeBlockWithPrevious
    (splitBlock (updateBlockContent (createEmptyDocument "d" "b0" 0) "b0" [⟨"ab", []⟩] 1)
      "b0" 1 2 "n1").2
    "n1" 3

/-- The documents of the batching scenario: `histEdit i` is `duoDoc` after
the first `i` edits (three successive text states of `b1`, then one of
`b2`), produced by `updateBlockContent` itself. -/
def histD1 : Document := updateBlockContent duoDoc "b1" [⟨"h", []⟩] 1

/-- Second edit state of the batching scenario. -/
def histD2 : Document := updateBlockContent histD1 "b1" [⟨"he", []⟩] 2

/-- Third edit state of the batching scenario. -/
def histD3 : Document := updateBlockContent histD2 "b1" [⟨"hel", []⟩] 3

/-- Fourth edit state of the batching scenario (the `b2` edit). -/
def histD4 : Document := updateBlockContent histD3 "b2" [⟨"x", []⟩] 4

/-- The history store after the full batching scenario: three text-edit
commits on `b1` within the quiet interval, a text-edit commit on `b2`,
then the elapse of the deadline (the scheduled `commitBatch`). -/
def histScenario : HistStore :=
  commitBatch
    (textEditCommit
      (textEditCommit
        (textEditCommit
          (textEditCommit (initialHistStore duoDoc) "b1" histD1 10)
          "b1" histD2 20)
        "b1" histD3 30)
      "b2" histD4 40)
    540

/-! Helper lemmas about the block record and list primitives. -/

/-- Every Phase-1 block kind passes the store's text-bearing guard. -/
theorem isTextBearing_eq_true (t : BlockType) : isTextBearing t = true := by
  cases t <;> rfl

/-- Lookup of the key just written. -/
theorem getBlock_setBlock_self (bs : List (BlockId × Block)) (i : BlockId) (b : Block) :
    getBlock (setBlock bs i b) i = some b := by
  induction bs with
  | nil => simp [setBlock, getBlock]
  | cons p rest ih =>
    obtain ⟨k, v⟩ := p
    by_cases hk : k = i
    · subst hk
      simp [setBlock, getBlock]
    · simp only [setBlock, if_neg hk, getBlock]
      exact ih

/-- Lookup of another key after a write. -/
theorem getBlock_setBlock_ne (bs : List (BlockId × Block)) (i j : BlockId) (b : Block)
    (h : j ≠ i) : getBlock (setBlock bs i b) j = getBlock bs j := by
  have h' : ¬ i = j := fun hh => h hh.symm
  induction bs with
  | nil => simp [setBlock, getBlock, h']
  | cons p rest ih =>
    obtain ⟨k, v⟩ := p
    by_cases hk : k = i
    · subst hk
      simp only [setBlock, if_pos rfl, getBlock]
      rw [if_neg h', if_neg h']
    · simp only [setBlock, if_neg hk, getBlock]
      by_cases hkj : k = j
      · rw [if_pos hkj, if_pos hkj]
      · rw [if_neg hkj, if_neg hkj]
        exact ih

/-- Lookup of the key just removed. -/
theorem getBlock_removeBlock_self (bs : List (BlockId × Block)) (i : BlockId) :
    getBlock (removeBlock bs i) i = none := by
  induction bs with
  | nil => rfl
  | cons p rest ih =>
    obtain ⟨k, v⟩ := p
    by_cases hk : k = i
    · subst hk
      simpa [removeBlock, List.filter_cons] using ih
    · simp only [removeBlock, List.filter_cons] at ih ⊢
      rw [if_pos (by simpa [bne_iff_ne] using hk)]
      simp only [getBlock]
      rw [if_neg hk]
      exact ih

/-- Lookup of another key after a removal. -/
theorem getBlock_removeBlock_ne (bs : List (BlockId × Block)) (i j : BlockId)
    (h : j ≠ i) : getBlock (removeBlock bs i) j = getBlock bs j := by
  induction bs with
  | nil => rfl
  | cons p rest ih =>
    obtain ⟨k, v⟩ := p
    by_cases hk : k = i
    · subst hk
      simp only [removeBlock, List.filter_cons] at ih ⊢
      rw [if_neg (by simp [bne_iff_ne])]
      simp only [getBlock]
      rw [if_neg (fun hh => h hh.symm)]
      exact ih
    · simp only [removeBlock, List.filter_cons] at ih ⊢
      rw [if_pos (by simpa [bne_iff_ne] using hk)]
      simp only [getBlock]
      by_cases hkj : k = j
      · rw [if_pos hkj, if_pos hkj]
      · rw [if_neg hkj, if_neg hkj]
        exact ih

/-- Removing an unbound key is the identity on the record. -/
theorem removeBlock_eq_self (bs : List (BlockId × Block)) (i : BlockId)
    (h : getBlock bs i = none) : removeBlock bs i = bs := by
  induction bs with
  | nil => rfl
  | cons p rest ih =>
    obtain ⟨k, v⟩ := p
    simp only [getBlock] at h
    by_cases hk : k = i
    · rw [if_pos hk] at h
      exact absurd h (by simp)
    · rw [if_neg hk] at h
      simp only [removeBlock, List.filter_cons] at ih ⊢
      rw [if_pos (by simpa [bne_iff_ne] using hk), ih h]

/-- Unfolding of the identifier filter on a cons cell. -/
theorem jsRemoveAll_cons (x : String) (xs : List String) (a : String) :
    jsRemoveAll (x :: xs) a =
      if x = a then jsRemoveAll xs a else x :: jsRemoveAll xs a := by
  simp only [jsRemoveAll, List.filter_cons]
  by_cases h : x = a
  · rw [if_neg (by simp [bne_iff_ne, h]), if_pos h]
  · rw [if_pos (by simpa [bne_iff_ne] using h), if_neg h]

/-- Filtering out an absent identifier is the identity. -/
theorem jsRemoveAll_eq_self {l : List String} {a : String} (h : a ∉ l) :
    jsRemoveAll l a = l := by
  induction l with
  | nil => rfl
  | cons x xs ih =>
    simp only [List.mem_cons, not_or] at h
    obtain ⟨h1, h2⟩ := h
    rw [jsRemoveAll_cons, if_neg (fun hh => h1 hh.symm), ih h2]

/-- Filtering an identifier out of a list in which it was freshly inserted
restores the original list. -/
theorem jsRemoveAll_insert {xs ys : List String} {a : String}
    (hx : a ∉ xs) (hy : a ∉ ys) :
    jsRemoveAll (xs ++ a :: ys) a = xs ++ ys := by
  induction xs with
  | nil =>
    rw [List.nil_append, jsRemoveAll_cons, if_pos rfl, jsRemoveAll_eq_self hy,
      List.nil_append]
  | cons x xs ih =>
    simp only [List.mem_cons, not_or] at hx
    obtain ⟨h1, h2⟩ := hx
    rw [List.cons_append, jsRemoveAll_cons, if_neg (fun hh => h1 hh.symm), ih h2,
      List.cons_append]

/-- With distinct identifiers, filtering removes at most one element. -/
theorem jsRemoveAll_length_ge {l : List String} (a : String) (h : l.Nodup) :
    l.length - 1 ≤ (jsRemoveAll l a).length := by
  induction l with
  | nil => simp [jsRemoveAll]
  | cons x xs ih =>
    rw [List.nodup_cons] at h
    obtain ⟨hx, hxs⟩ := h
    by_cases hxa : x = a
    · subst hxa
      rw [jsRemoveAll_cons, if_pos rfl, jsRemoveAll_eq_self hx]
      simp
    · rw [jsRemoveAll_cons, if_neg hxa]
      have := ih hxs
      simp only [List.length_cons]
      omega

/-- A found index is within bounds. -/
theorem jsIndexOf_lt_length {l : List String} {a : String} {i : Nat}
    (h : jsIndexOf l a = some i) : i < l.length := by
  induction l generalizing i with
  | nil => exact absurd h (by simp [jsIndexOf])
  | cons x xs ih =>
    simp only [jsIndexOf] at h
    by_cases hx : x = a
    · rw [if_pos hx] at h
      injection h with h
      subst h
      simp
    · rw [if_neg hx] at h
      cases hj : jsIndexOf xs a with
      | none => rw [hj] at h; simp at h
      | some j =>
        rw [hj] at h
        simp only [Option.map_some'] at h
        injection h with h
        have := ih hj
        simp only [List.length_cons]
        omega

/-- The function `jsIndexOf` finds the element it reports. -/
theorem jsIndexOf_get? {l : List String} {a : String} {i : Nat}
    (h : jsIndexOf l a = some i) : l.get? i = some a := by
  induction l generalizing i with
  | nil => exact absurd h (by simp [jsIndexOf])
  | cons x xs ih =>
    simp only [jsIndexOf] at h
    by_cases hx : x = a
    · rw [if_pos hx] at h
      injection h with h
      subst h
      simpa using hx
    · rw [if_neg hx] at h
      cases hj : jsIndexOf xs a with
      | none => rw [hj] at h; simp at h
      | some j =>
        rw [hj] at h
        simp only [Option.map_some'] at h
        injection h with h
        subst h
        simpa using ih hj

/-- The element right before the first found index differs from the
needle. -/
theorem jsIndexOf_prev_ne {l : List String} {a p : String} {i : Nat}
    (h : jsIndexOf l a = some (i + 1)) (hp : l.get? i = some p) : p ≠ a := by
  induction l generalizing i with
  | nil => exact absurd h (by simp [jsIndexOf])
  | cons x xs ih =>
    simp only [jsIndexOf] at h
    by_cases hx : x = a
    · rw [if_pos hx] at h
      exact absurd h (by simp)
    · rw [if_neg hx] at h
      cases hj : jsIndexOf xs a with
      | none => rw [hj] at h; simp at h
      | some j =>
        rw [hj] at h
        simp only [Option.map_some'] at h
        injection h with h
        cases i with
        | zero =>
          simp only [List.get?] at hp
          injection hp with hp
          subst hp
          exact hx
        | succ i' =>
          simp only [List.get?] at hp
          have hj' : jsIndexOf xs a = some (i' + 1) := by
            rw [hj]
            congr 1
            omega
          exact ih hj' hp

/-- Membership yields an index. -/
theorem jsIndexOf_of_mem {l : List String} {a : String} (h : a ∈ l) :
    ∃ i, jsIndexOf l a = some i := by
  induction l with
  | nil => simp at h
  | cons x xs ih =>
    by_cases hx : x = a
    · exact ⟨0, by simp [jsIndexOf, hx]⟩
    · have hmem : a ∈ xs := by
        rcases List.mem_cons.mp h with h' | h'
        · exact absurd h'.symm hx
        · exact h'
      obtain ⟨i, hi⟩ := ih hmem
      exact ⟨i + 1, by simp [jsIndexOf, hx, hi]⟩

/-- Running `jsIndexOf` on a freshly inserted identifier reports the insertion
point. -/
theorem jsIndexOf_insert {xs ys : List String} {a : String} (h : a ∉ xs) :
    jsIndexOf (xs ++ a :: ys) a = some xs.length := by
  induction xs with
  | nil => simp [jsIndexOf]
  | cons x xs ih =>
    simp only [List.mem_cons, not_or] at h
    obtain ⟨h1, h2⟩ := h
    have hne : ¬ x = a := fun hh => h1 hh.symm
    show jsIndexOf (x :: (xs ++ a :: ys)) a = some (x :: xs).length
    simp only [jsIndexOf, if_neg hne, ih h2, Option.map_some', List.length_cons]

/-- Indexing into the left part of an append. -/
theorem get?_append_left' {α : Type} {xs ys : List α} {i : Nat}
    (h : i < xs.length) : (xs ++ ys).get? i = xs.get? i := by
  induction xs generalizing i with
  | nil => simp at h
  | cons x xs ih =>
    cases i with
    | zero => rfl
    | succ i' =>
      simp only [List.length_cons] at h
      simpa using ih (by omega)

/-- Indexing below the cut point of a `take`. -/
theorem get?_take_lt {α : Type} {l : List α} {n i : Nat} (h : i < n) :
    (l.take n).get? i = l.get? i := by
  induction l generalizing n i with
  | nil => simp
  | cons x xs ih =>
    cases n with
    | zero => omega
    | succ n' =>
      cases i with
      | zero => rfl
      | succ i' => simpa using ih (by omega)

/-! Helper lemmas about strings and plain-text projection. -/

/-- Appending the empty string on the right. -/
theorem string_append_empty (s : String) : s ++ "" = s := by
  show String.mk (s.data ++ []) = s
  rw [List.append_nil]

/-- Appending the empty string on the left. -/
theorem string_empty_append (s : String) : "" ++ s = s := rfl

/-- The two halves of a slice reassemble to the original string. -/
theorem jsSlice_append (s : String) (k : Nat) :
    jsSliceTo s k ++ jsSliceFrom s k = s := by
  show String.mk (s.data.take k ++ s.data.drop k) = s
  rw [List.take_append_drop]

/-- Plain-text projection of a single rebuilt run sequence. -/
theorem richTextToPlainText_plainTextToRichText (s : String) :
    richTextToPlainText (plainTextToRichText s) = s := by
  by_cases h : s = "" <;>
    simp [plainTextToRichText, richTextToPlainText, jsJoin, h, string_append_empty]

/-- Plain-text projection of the concatenation of two rebuilt run
sequences. -/
theorem richTextToPlainText_append_rebuilt (s t : String) :
    richTextToPlainText (plainTextToRichText s ++ plainTextToRichText t) = s ++ t := by
  by_cases hs : s = "" <;> by_cases ht : t = "" <;>
    simp [plainTextToRichText, richTextToPlainText, jsJoin, hs, ht,
      string_append_empty, string_empty_append]


/-! Characterisations of the store actions under resolving hypotheses. -/

/-- What `splitBlock` computes when the block resolves and sits in the
root order. -/
theorem splitBlock_eq (doc : Document) (B nid : BlockId) (b : Block) (k now ci : Nat)
    (hb : getBlock doc.blocks B = some b)
    (hidx : jsIndexOf doc.rootBlockIds B = some ci) :
    splitBlock doc B k now nid =
      (nid,
        { doc with
          blocks := setBlock
            (setBlock doc.blocks B
              { b with
                content := plainTextToRichText (jsSliceTo (richTextToPlainText b.content) k)
                updatedAt := now })
            nid
            (createParagraphBlock nid (jsSliceFrom (richTextToPlainText b.content) k) now)
          rootBlockIds := doc.rootBlockIds.take (ci + 1)
            ++ nid :: doc.rootBlockIds.drop (ci + 1)
          updatedAt := now }) := by
  simp only [splitBlock, hb, isTextBearing_eq_true, if_true, hidx]

/-- What `mergeBlockWithPrevious` computes when the block sits at a
positive root index and both it and its predecessor resolve. -/
theorem mergeBlockWithPrevious_eq (doc : Document) (id pid : BlockId)
    (pb cb : Block) (now ci : Nat)
    (hidx : jsIndexOf doc.rootBlockIds id = some (ci + 1))
    (hprev : doc.rootBlockIds.get? ci = some pid)
    (hpb : getBlock doc.blocks pid = some pb)
    (hcb : getBlock doc.blocks id = some cb) :
    mergeBlockWithPrevious doc id now =
      { doc with
        blocks := setBlock (removeBlock doc.blocks id) pid
          { pb with
            content := pb.content ++ cb.content
            updatedAt := now }
        rootBlockIds := jsRemoveAll doc.rootBlockIds id
        updatedAt := now } := by
  simp only [mergeBlockWithPrevious, hidx, hprev, hpb, hcb,
    isTextBearing_eq_true, Bool.and_self, if_true]


/-! Claim theorems. -/

/-- C1: for every document, every text-bearing block `B` whose plain-text
projection is `T`, and every offset `k` in `[0, len T]`, splitting `B` at
`k` and then merging the freshly created sibling back restores, at `B`'s
original position, a block whose plain-text projection equals `T`
(timestamps excluded).  The fresh identifier `nid` is assumed unused, as
`nanoid` guarantees. -/
theorem C1_split_merge_roundtrip
    (doc : Document) (B nid : BlockId) (b : Block) (k now₁ now₂ : Nat)
    (hb : getBlock doc.blocks B = some b)
    (hB : B ∈ doc.rootBlockIds)
    (hnidBlocks : getBlock doc.blocks nid = none)
    (hnidRoot : nid ∉ doc.rootBlockIds)
    (_hk : k ≤ (richTextToPlainText b.content).length) :
    (mergeBlockWithPrevious (splitBlock doc B k now₁ nid).2
        (splitBlock doc B k now₁ nid).1 now₂).rootBlockIds = doc.rootBlockIds ∧
    ∃ b', getBlock (mergeBlockWithPrevious (splitBlock doc B k now₁ nid).2
        (splitBlock doc B k now₁ nid).1 now₂).blocks B = some b' ∧
      richTextToPlainText b'.content = richTextToPlainText b.content := by
  obtain ⟨ci, hidx⟩ := jsIndexOf_of_mem hB
  have hnB : nid ≠ B := by
    intro h
    rw [h, hb] at hnidBlocks
    exact absurd hnidBlocks (by simp)
  have hciLt : ci < doc.rootBlockIds.length := jsIndexOf_lt_length hidx
  have hnidTake : nid ∉ doc.rootBlockIds.take (ci + 1) :=
    fun h => hnidRoot (List.take_subset _ _ h)
  have hnidDrop : nid ∉ doc.rootBlockIds.drop (ci + 1) :=
    fun h => hnidRoot (List.drop_subset _ _ h)
  rw [splitBlock_eq doc B nid b k now₁ ci hb hidx]
  have hidx₂ : jsIndexOf
      (doc.rootBlockIds.take (ci + 1) ++ nid :: doc.rootBlockIds.drop (ci + 1)) nid
      = some (ci + 1) := by
    have h := @jsIndexOf_insert (doc.rootBlockIds.take (ci + 1))
      (doc.rootBlockIds.drop (ci + 1)) nid hnidTake
    rw [List.length_take, min_eq_left (by omega)] at h
    exact h
  have hprev₂ : (doc.rootBlockIds.take (ci + 1)
      ++ nid :: doc.rootBlockIds.drop (ci + 1)).get? ci = some B := by
    rw [get?_append_left' (by rw [List.length_take]; omega),
      get?_take_lt (Nat.lt_succ_self ci)]
    exact jsIndexOf_get? hidx
  rw [mergeBlockWithPrevious_eq _ nid B
    { b with
      content := plainTextToRichText (jsSliceTo (richTextToPlainText b.content) k)
      updatedAt := now₁ }
    (createParagraphBlock nid (jsSliceFrom (richTextToPlainText b.content) k) now₁)
    now₂ ci hidx₂ hprev₂
    (by
      rw [getBlock_setBlock_ne _ _ _ _ (Ne.symm hnB)]
      exact getBlock_setBlock_self _ _ _)
    (getBlock_setBlock_self _ _ _)]
  constructor
  · show jsRemoveAll
      (doc.rootBlockIds.take (ci + 1) ++ nid :: doc.rootBlockIds.drop (ci + 1)) nid
      = doc.rootBlockIds
    rw [jsRemoveAll_insert hnidTake hnidDrop, List.take_append_drop]
  · refine ⟨_, getBlock_setBlock_self _ _ _, ?_⟩
    show richTextToPlainText
      (plainTextToRichText (jsSliceTo (richTextToPlainText b.content) k)
        ++ plainTextToRichText (jsSliceFrom (richTextToPlainText b.content) k))
      = richTextToPlainText b.content
    rw [richTextToPlainText_append_rebuilt, jsSlice_append]

/-- C1 witness: the spec's own example — a paragraph with plain text
"hello world" split at offset 5, the new sibling merged back. -/
theorem C1_split_merge_roundtrip_witness :
    getBlock hwDoc.blocks "b0" = some hwBlock ∧
    "b0" ∈ hwDoc.rootBlockIds ∧
    getBlock hwDoc.blocks "n1" = none ∧
    "n1" ∉ hwDoc.rootBlockIds ∧
    5 ≤ (richTextToPlainText hwBlock.content).length ∧
    ((mergeBlockWithPrevious (splitBlock hwDoc "b0" 5 1 "n1").2
        (splitBlock hwDoc "b0" 5 1 "n1").1 2).rootBlockIds = hwDoc.rootBlockIds ∧
      ∃ b', getBlock (mergeBlockWithPrevious (splitBlock hwDoc "b0" 5 1 "n1").2
          (splitBlock hwDoc "b0" 5 1 "n1").1 2).blocks "b0" = some b' ∧
        richTextToPlainText b'.content = richTextToPlainText hwBlock.content) :=
  ⟨by decide, by decide, by decide, by decide, by decide,
    C1_split_merge_roundtrip hwDoc "b0" "n1" hwBlock 5 1 2 (by decide) (by decide)
      (by decide) (by decide) (by decide)⟩


/-- C4 counterexample: the claim says `splitBlock` leaves the original
block carrying the "before" runs.  On a paragraph whose single run "ab"
is bold, splitting at offset 1 leaves `[⟨"a", no marks⟩]` in the original
block, which differs from the before half `[⟨"a", bold⟩]` of the Mark
Algebra split of its run sequence. -/
theorem C4_counterexample :
    (getBlock (splitBlock boldDoc "b0" 1 5 "n1").2.blocks "b0").map (·.content)
      = some [⟨"a", []⟩] ∧
    (splitRunsAt boldBlock.content 1).1 = [⟨"a", [⟨.bold, none⟩]⟩] ∧
    some [(⟨"a", []⟩ : RichText)] ≠ some (splitRunsAt boldBlock.content 1).1 := by
  refine ⟨by decide, by decide, by decide⟩

/-- C4 (amended): for a resolving text-bearing block, `splitBlock` leaves
the original block carrying a single unmarked run holding the "before"
text (empty content when that text is empty) — formatting marks are
discarded, see C10 — inserts a new *paragraph* block carrying the "after"
text immediately after the original in the root order (also when the
split block is a heading), and returns the new block's identifier. -/
theorem C4_split_structure
    (doc : Document) (B nid : BlockId) (b : Block) (k now ci : Nat)
    (hb : getBlock doc.blocks B = some b)
    (hidx : jsIndexOf doc.rootBlockIds B = some ci)
    (hnidBlocks : getBlock doc.blocks nid = none) :
    (splitBlock doc B k now nid).1 = nid ∧
    (∃ b', getBlock (splitBlock doc B k now nid).2.blocks B = some b' ∧
      b'.type = b.type ∧
      b'.content = plainTextToRichText (jsSliceTo (richTextToPlainText b.content) k)) ∧
    getBlock (splitBlock doc B k now nid).2.blocks nid
      = some (createParagraphBlock nid (jsSliceFrom (richTextToPlainText b.content) k) now) ∧
    (createParagraphBlock nid (jsSliceFrom (richTextToPlainText b.content) k) now).type
      = BlockType.paragraph ∧
    (splitBlock doc B k now nid).2.rootBlockIds
      = doc.rootBlockIds.take (ci + 1) ++ nid :: doc.rootBlockIds.drop (ci + 1) := by
  have hnB : nid ≠ B := by
    intro h
    rw [h, hb] at hnidBlocks
    exact absurd hnidBlocks (by simp)
  rw [splitBlock_eq doc B nid b k now ci hb hidx]
  refine ⟨rfl,
    ⟨{ b with
        content := plainTextToRichText (jsSliceTo (richTextToPlainText b.content) k)
        updatedAt := now }, ?_, rfl, rfl⟩,
    getBlock_setBlock_self _ _ _, rfl, rfl⟩
  rw [getBlock_setBlock_ne _ _ _ _ (Ne.symm hnB)]
  exact getBlock_setBlock_self _ _ _

/-- C4 witness: the amended split behaviour at the bold "ab" paragraph,
offset 1. -/
theorem C4_split_structure_witness :
    getBlock boldDoc.blocks "b0" = some boldBlock ∧
    jsIndexOf boldDoc.rootBlockIds "b0" = some 0 ∧
    getBlock boldDoc.blocks "n1" = none ∧
    ((splitBlock boldDoc "b0" 1 5 "n1").1 = "n1" ∧
      (∃ b', getBlock (splitBlock boldDoc "b0" 1 5 "n1").2.blocks "b0" = some b' ∧
        b'.type = boldBlock.type ∧
        b'.content = plainTextToRichText
          (jsSliceTo (richTextToPlainText boldBlock.content) 1)) ∧
      getBlock (splitBlock boldDoc "b0" 1 5 "n1").2.blocks "n1"
        = some (createParagraphBlock "n1"
            (jsSliceFrom (richTextToPlainText boldBlock.content) 1) 5) ∧
      (createParagraphBlock "n1"
          (jsSliceFrom (richTextToPlainText boldBlock.content) 1) 5).type
        = BlockType.paragraph ∧
      (splitBlock boldDoc "b0" 1 5 "n1").2.rootBlockIds
        = boldDoc.rootBlockIds.take 1 ++ "n1" :: boldDoc.rootBlockIds.drop 1) :=
  ⟨by decide, by decide, by decide,
    C4_split_structure boldDoc "b0" "n1" boldBlock 1 5 0 (by decide) (by decide)
      (by decide)⟩

/-- C10: splitting a text-bearing block flattens its rich text — after
`splitBlock`, the original block and the new block each hold at most one
run, every remaining run has an empty mark set, and the two plain-text
projections are exactly the two halves of the original projection: all
formatting marks are discarded, the "before" part included. -/
theorem C10_split_discards_marks
    (doc : Document) (B nid : BlockId) (b : Block) (k now ci : Nat)
    (hb : getBlock doc.blocks B = some b)
    (hidx : jsIndexOf doc.rootBlockIds B = some ci)
    (hnidBlocks : getBlock doc.blocks nid = none) :
    ∃ b' nb',
      getBlock (splitBlock doc B k now nid).2.blocks B = some b' ∧
      getBlock (splitBlock doc B k now nid).2.blocks nid = some nb' ∧
      b'.content.length ≤ 1 ∧ nb'.content.length ≤ 1 ∧
      (∀ r ∈ b'.content, r.marks = []) ∧
      (∀ r ∈ nb'.content, r.marks = []) ∧
      richTextToPlainText b'.content
        = jsSliceTo (richTextToPlainText b.content) k ∧
      richTextToPlainText nb'.content
        = jsSliceFrom (richTextToPlainText b.content) k := by
  have hnB : nid ≠ B := by
    intro h
    rw [h, hb] at hnidBlocks
    exact absurd hnidBlocks (by simp)
  rw [splitBlock_eq doc B nid b k now ci hb hidx]
  refine ⟨{ b with
      content := plainTextToRichText (jsSliceTo (richTextToPlainText b.content) k)
      updatedAt := now },
    createParagraphBlock nid (jsSliceFrom (richTextToPlainText b.content) k) now,
    ?_, getBlock_setBlock_self _ _ _, ?_, ?_, ?_, ?_, ?_, ?_⟩
  · rw [getBlock_setBlock_ne _ _ _ _ (Ne.symm hnB)]
    exact getBlock_setBlock_self _ _ _
  · show (plainTextToRichText (jsSliceTo (richTextToPlainText b.content) k)).length ≤ 1
    by_cases h : jsSliceTo (richTextToPlainText b.content) k = "" <;>
      simp [plainTextToRichText, h]
  · show (plainTextToRichText (jsSliceFrom (richTextToPlainText b.content) k)).length ≤ 1
    by_cases h : jsSliceFrom (richTextToPlainText b.content) k = "" <;>
      simp [plainTextToRichText, h]
  · show ∀ r ∈ plainTextToRichText (jsSliceTo (richTextToPlainText b.content) k),
      r.marks = []
    by_cases h : jsSliceTo (richTextToPlainText b.content) k = "" <;>
      simp [plainTextToRichText, h]
  · show ∀ r ∈ plainTextToRichText (jsSliceFrom (richTextToPlainText b.content) k),
      r.marks = []
    by_cases h : jsSliceFrom (richTextToPlainText b.content) k = "" <;>
      simp [plainTextToRichText, h]
  · exact richTextToPlainText_plainTextToRichText _
  · exact richTextToPlainText_plainTextToRichText _

/-- C10 witness: splitting the bold "ab" paragraph at offset 1 leaves two
blocks of at most one unmarked run each, with plain texts "a" and "b". -/
theorem C10_split_discards_marks_witness :
    getBlock boldDoc.blocks "b0" = some boldBlock ∧
    jsIndexOf boldDoc.rootBlockIds "b0" = some 0 ∧
    getBlock boldDoc.blocks "n2" = none ∧
    (∃ b' nb',
      getBlock (splitBlock boldDoc "b0" 1 7 "n2").2.blocks "b0" = some b' ∧
      getBlock (splitBlock boldDoc "b0" 1 7 "n2").2.blocks "n2" = some nb' ∧
      b'.content.length ≤ 1 ∧ nb'.content.length ≤ 1 ∧
      (∀ r ∈ b'.content, r.marks = []) ∧
      (∀ r ∈ nb'.content, r.marks = []) ∧
      richTextToPlainText b'.content
        = jsSliceTo (richTextToPlainText boldBlock.content) 1 ∧
      richTextToPlainText nb'.content
        = jsSliceFrom (richTextToPlainText boldBlock.content) 1) :=
  ⟨by decide, by decide, by decide,
    C10_split_discards_marks boldDoc "b0" "n2" boldBlock 1 7 0 (by decide) (by decide)
      (by decide)⟩


/-- C5 counterexample: the claim says `mergeWithPrevious` reparents all
children of the removed block onto the previous sibling.  In `childDoc`,
block `c` has the child `k`; after merging `c` into `p`, no block of the
document lists `k` among its children — `k` is left without a parent. -/
theorem C5_counterexample :
    (getBlock childDoc.blocks "c").map (·.children) = some ["k"] ∧
    getBlock (mergeBlockWithPrevious childDoc "c" 5).blocks "c" = none ∧
    (∀ p ∈ (mergeBlockWithPrevious childDoc "c" 5).blocks, "k" ∉ p.2.children) := by
  refine ⟨by decide, by decide, by decide⟩

/-- C5 (amended): when `id` sits at a positive root index and both it and
its immediate predecessor resolve, `mergeBlockWithPrevious` concatenates
`id`'s run sequence onto the predecessor's, removes `id` from the store
and the root order, and leaves the predecessor's (and every other
block's) `children` list untouched — the children of `id` are *not*
reparented; and the operation is a no-op when `id` has no preceding
sibling. -/
theorem C5_merge_behaviour (doc : Document) (id pid : BlockId)
    (pb cb : Block) (now ci : Nat) :
    (jsIndexOf doc.rootBlockIds id = some (ci + 1) →
      doc.rootBlockIds.get? ci = some pid →
      getBlock doc.blocks pid = some pb →
      getBlock doc.blocks id = some cb →
      ∃ pb', getBlock (mergeBlockWithPrevious doc id now).blocks pid = some pb' ∧
        pb'.content = pb.content ++ cb.content ∧
        pb'.children = pb.children ∧
        getBlock (mergeBlockWithPrevious doc id now).blocks id = none ∧
        (mergeBlockWithPrevious doc id now).rootBlockIds
          = jsRemoveAll doc.rootBlockIds id) ∧
    (jsIndexOf doc.rootBlockIds id = some 0 →
      mergeBlockWithPrevious doc id now = doc) := by
  constructor
  · intro hidx hprev hpb hcb
    have hne : pid ≠ id := jsIndexOf_prev_ne hidx hprev
    rw [mergeBlockWithPrevious_eq doc id pid pb cb now ci hidx hprev hpb hcb]
    refine ⟨_, getBlock_setBlock_self _ _ _, rfl, rfl, ?_, rfl⟩
    show getBlock (setBlock (removeBlock doc.blocks id) pid
      { pb with content := pb.content ++ cb.content, updatedAt := now }) id = none
    rw [getBlock_setBlock_ne _ _ _ _ (Ne.symm hne)]
    exact getBlock_removeBlock_self _ _
  · intro h
    simp only [mergeBlockWithPrevious, h]

/-- C5 witness: the amended merge behaviour at `childDoc` (merging `c`
into `p`), and the no-op case at the first root block `p`. -/
theorem C5_merge_behaviour_witness :
    (∃ pb', getBlock (mergeBlockWithPrevious childDoc "c" 5).blocks "p" = some pb' ∧
      pb'.content = childP.content ++ childC.content ∧
      pb'.children = childP.children ∧
      getBlock (mergeBlockWithPrevious childDoc "c" 5).blocks "c" = none ∧
      (mergeBlockWithPrevious childDoc "c" 5).rootBlockIds
        = jsRemoveAll childDoc.rootBlockIds "c") ∧
    mergeBlockWithPrevious childDoc "p" 5 = childDoc :=
  ⟨(C5_merge_behaviour childDoc "c" "p" childP childC 5 0).1
      (by decide) (by decide) (by decide) (by decide),
    (C5_merge_behaviour childDoc "p" "p" childP childC 5 0).2 (by decide)⟩

/-- C2 counterexample: deleting the sole root block of `hwDoc` does leave
the document unchanged, but no `Rejected` outcome is signalled — the
store action returns nothing and writes no error anywhere — so the claim
as stated fails at this input. -/
theorem C2_counterexample :
    ¬ ((deleteBlockResult hwDoc "b0" 7).1 = hwDoc ∧
        (deleteBlockResult hwDoc "b0" 7).2 = some TreeError.Rejected) := by
  decide

/-- C2 (amended): `deleteBlock` on a document with at most one root block
is a silent no-op — the document (timestamps included) is returned
unchanged and no error outcome is signalled — and on any document with
distinct root identifiers the root order never becomes empty, so a
document always keeps at least one root block. -/
theorem C2_delete_last_guard (doc : Document) (id : BlockId) (now : Nat) :
    (doc.rootBlockIds.length ≤ 1 → deleteBlock doc id now = doc) ∧
    (doc.rootBlockIds ≠ [] → doc.rootBlockIds.Nodup →
      (deleteBlock doc id now).rootBlockIds ≠ []) ∧
    (deleteBlockResult doc id now).2 = none := by
  refine ⟨fun h => by simp only [deleteBlock, if_pos h], ?_, rfl⟩
  intro hne hnd
  by_cases h : doc.rootBlockIds.length ≤ 1
  · simp only [deleteBlock, if_pos h]
    exact hne
  · simp only [deleteBlock, if_neg h]
    have hlen := jsRemoveAll_length_ge id hnd
    intro heq
    rw [heq] at hlen
    simp only [List.length_nil] at hlen
    omega

/-- C2 witness: the guard at the one-block document `hwDoc`, the
at-least-one-block invariant at the two-block document `duoDoc`, and the
absent error outcome. -/
theorem C2_delete_last_guard_witness :
    deleteBlock hwDoc "b0" 7 = hwDoc ∧
    (deleteBlock duoDoc "b1" 9).rootBlockIds ≠ [] ∧
    (deleteBlockResult hwDoc "b0" 7).2 = none :=
  ⟨(C2_delete_last_guard hwDoc "b0" 7).1 (by decide),
    (C2_delete_last_guard duoDoc "b1" 9).2.1 (by decide) (by decide),
    (C2_delete_last_guard hwDoc "b0" 7).2.2⟩

/-- C3 counterexample: with `afterId = "zzz"` unresolved, `createBlock`
does not fail — it appends the new block to the end of the root order and
stores it, contradicting "fails with NotFound and inserts no block". -/
theorem C3_counterexample :
    (createBlock hwDoc (some "zzz") BlockType.paragraph 5 "n2").2.rootBlockIds
      = ["b0", "n2"] ∧
    (createBlock hwDoc (some "zzz") BlockType.paragraph 5 "n2").2.rootBlockIds
      ≠ hwDoc.rootBlockIds ∧
    getBlock (createBlock hwDoc (some "zzz") BlockType.paragraph 5 "n2").2.blocks "n2"
      = some (createParagraphBlock "n2" "" 5) := by
  refine ⟨by decide, by decide, by decide⟩

/-- C3 (amended): when the non-null `afterId` does not resolve in the
root order, `createBlock` appends the freshly-identified block at the end
of the root list, stores it, and returns its identifier; no error is
signalled (the source comments this very case: "If afterBlockId not
found, append to end"). -/
theorem C3_create_appends (doc : Document) (aid : BlockId) (t : BlockType)
    (now : Nat) (nid : BlockId)
    (h : jsIndexOf doc.rootBlockIds aid = none) :
    (createBlock doc (some aid) t now nid).1 = nid ∧
    (createBlock doc (some aid) t now nid).2.rootBlockIds
      = doc.rootBlockIds ++ [nid] ∧
    ∃ nb, getBlock (createBlock doc (some aid) t now nid).2.blocks nid = some nb := by
  refine ⟨rfl, ?_, ?_⟩
  · simp only [createBlock, h]
  · exact ⟨_, getBlock_setBlock_self _ _ _⟩

/-- C3 witness: the amended append behaviour at `hwDoc` with the
unresolvable `afterId = "zzz"`. -/
theorem C3_create_appends_witness :
    (createBlock hwDoc (some "zzz") BlockType.paragraph 5 "n3").1 = "n3" ∧
    (createBlock hwDoc (some "zzz") BlockType.paragraph 5 "n3").2.rootBlockIds
      = hwDoc.rootBlockIds ++ ["n3"] ∧
    ∃ nb, getBlock
      (createBlock hwDoc (some "zzz") BlockType.paragraph 5 "n3").2.blocks "n3"
      = some nb :=
  C3_create_appends hwDoc "zzz" BlockType.paragraph 5 "n3" (by decide)


/-- Rebuilt single-run sequences satisfy the normalization invariant. -/
theorem normalizedRuns_plainTextToRichText (s : String) :
    normalizedRuns (plainTextToRichText s) = true := by
  by_cases h : s = "" <;> simp [plainTextToRichText, normalizedRuns, h]

/-- C6 counterexample: normalization is not an invariant of reachable
documents.  Starting from the empty document, typing "ab"
(`updateBlockContent`), splitting at offset 1 and merging the sibling
back (`splitBlock`; `mergeBlockWithPrevious`) yields a block whose
content holds two adjacent runs with identical (empty) format-sets. -/
theorem C6_counterexample :
    (getBlock splitMergeDoc.blocks "b0").map (·.content)
      = some [⟨"a", []⟩, ⟨"b", []⟩] ∧
    normalizedRuns [⟨"a", []⟩, ⟨"b", []⟩] = false := by
  refine ⟨by decide, by decide⟩

/-- C6 (amended): `splitBlock` writes only normalized run sequences into
the two blocks it touches, but `mergeBlockWithPrevious` concatenates the
two run sequences verbatim — without merging adjacent runs of identical
format-sets — so run normalization is not an invariant preserved by every
content-producing operation (`updateBlockContent` likewise stores the
caller's runs verbatim). -/
theorem C6_normalization_not_invariant (doc : Document) (B nid id pid : BlockId)
    (b pb cb : Block) (k now ci : Nat) :
    (getBlock doc.blocks B = some b →
      jsIndexOf doc.rootBlockIds B = some ci →
      getBlock doc.blocks nid = none →
      ∃ b' nb', getBlock (splitBlock doc B k now nid).2.blocks B = some b' ∧
        getBlock (splitBlock doc B k now nid).2.blocks nid = some nb' ∧
        normalizedRuns b'.content = true ∧
        normalizedRuns nb'.content = true) ∧
    (jsIndexOf doc.rootBlockIds id = some (ci + 1) →
      doc.rootBlockIds.get? ci = some pid →
      getBlock doc.blocks pid = some pb →
      getBlock doc.blocks id = some cb →
      ∃ pb', getBlock (mergeBlockWithPrevious doc id now).blocks pid = some pb' ∧
        pb'.content = pb.content ++ cb.content) := by
  constructor
  · intro hb hidx hnidBlocks
    have hnB : nid ≠ B := by
      intro h
      rw [h, hb] at hnidBlocks
      exact absurd hnidBlocks (by simp)
    rw [splitBlock_eq doc B nid b k now ci hb hidx]
    refine ⟨{ b with
        content := plainTextToRichText (jsSliceTo (richTextToPlainText b.content) k)
        updatedAt := now },
      createParagraphBlock nid (jsSliceFrom (richTextToPlainText b.content) k) now,
      ?_, getBlock_setBlock_self _ _ _,
      normalizedRuns_plainTextToRichText _, normalizedRuns_plainTextToRichText _⟩
    rw [getBlock_setBlock_ne _ _ _ _ (Ne.symm hnB)]
    exact getBlock_setBlock_self _ _ _
  · intro hidx hprev hpb hcb
    rw [mergeBlockWithPrevious_eq doc id pid pb cb now ci hidx hprev hpb hcb]
    exact ⟨_, getBlock_setBlock_self _ _ _, rfl⟩

/-- C6 witness: the split conjunct at `hwDoc` (offset 5) and the
verbatim-concatenation conjunct at `childDoc`. -/
theorem C6_normalization_not_invariant_witness :
    (∃ b' nb', getBlock (splitBlock hwDoc "b0" 5 9 "n4").2.blocks "b0" = some b' ∧
      getBlock (splitBlock hwDoc "b0" 5 9 "n4").2.blocks "n4" = some nb' ∧
      normalizedRuns b'.content = true ∧
      normalizedRuns nb'.content = true) ∧
    (∃ pb', getBlock (mergeBlockWithPrevious childDoc "c" 9).blocks "p" = some pb' ∧
      pb'.content = childP.content ++ childC.content) :=
  ⟨(C6_normalization_not_invariant hwDoc "b0" "n4" "x" "x" hwBlock hwBlock hwBlock 5 9 0).1
      (by decide) (by decide) (by decide),
    (C6_normalization_not_invariant childDoc "c" "n4" "c" "p" childC childP childC 5 9 0).2
      (by decide) (by decide) (by decide) (by decide)⟩

/-- C7 counterexample: `deleteBlock` of an identifier that does not
resolve (on a two-root-block document) is claimed to leave the Document,
`updatedAt` included, unchanged; in fact it refreshes `updatedAt`. -/
theorem C7_counterexample :
    deleteBlock duoDoc "zzz" 9 ≠ duoDoc ∧
    (deleteBlock duoDoc "zzz" 9).blocks = duoDoc.blocks ∧
    (deleteBlock duoDoc "zzz" 9).rootBlockIds = duoDoc.rootBlockIds ∧
    (deleteBlock duoDoc "zzz" 9).updatedAt = 9 := by
  refine ⟨by decide, by decide, by decide, by decide⟩

/-- C7 (amended): the non-applying operations are all-or-nothing with one
exception.  `splitBlock` of an unresolvable identifier,
`mergeBlockWithPrevious` of a first-position block, and `deleteBlock` of
the last root block return the document entirely unchanged; but
`deleteBlock` of an unresolvable identifier on a larger document, while
leaving the block store and root order unchanged, still refreshes the
document's `updatedAt` timestamp. -/
theorem C7_all_or_nothing (doc : Document) (id nid : BlockId) (k now : Nat) :
    (getBlock doc.blocks id = none → splitBlock doc id k now nid = ("", doc)) ∧
    (jsIndexOf doc.rootBlockIds id = some 0 →
      mergeBlockWithPrevious doc id now = doc) ∧
    (doc.rootBlockIds.length ≤ 1 → deleteBlock doc id now = doc) ∧
    (getBlock doc.blocks id = none → id ∉ doc.rootBlockIds →
      1 < doc.rootBlockIds.length →
      deleteBlock doc id now = { doc with updatedAt := now }) := by
  refine ⟨fun h => by simp only [splitBlock, h],
    fun h => by simp only [mergeBlockWithPrevious, h],
    fun h => by simp only [deleteBlock, if_pos h],
    fun h1 h2 h3 => ?_⟩
  simp only [deleteBlock, if_neg (by omega : ¬ doc.rootBlockIds.length ≤ 1)]
  rw [removeBlock_eq_self _ _ h1, jsRemoveAll_eq_self h2]

/-- C7 witness: the four cases at concrete inputs — unresolvable split and
delete on `duoDoc`, first-block merge on `duoDoc`, last-block delete on
`hwDoc`. -/
theorem C7_all_or_nothing_witness :
    splitBlock duoDoc "zzz" 3 9 "n5" = ("", duoDoc) ∧
    mergeBlockWithPrevious duoDoc "b1" 9 = duoDoc ∧
    deleteBlock hwDoc "b0" 9 = hwDoc ∧
    deleteBlock duoDoc "zzz" 9 = { duoDoc with updatedAt := 9 } :=
  ⟨(C7_all_or_nothing duoDoc "zzz" "n5" 3 9).1 (by decide),
    (C7_all_or_nothing duoDoc "b1" "n5" 3 9).2.1 (by decide),
    (C7_all_or_nothing hwDoc "b0" "n5" 3 9).2.2.1 (by decide),
    (C7_all_or_nothing duoDoc "zzz" "n5" 3 9).2.2.2 (by decide) (by decide) (by decide)⟩

/-- Stripping block timestamps commutes with a record write. -/
theorem map_strip_setBlock (bs : List (BlockId × Block)) (i : BlockId) (b : Block) :
    (setBlock bs i b).map (fun p => (p.1, stripBlockTimes p.2))
      = setBlock (bs.map (fun p => (p.1, stripBlockTimes p.2))) i
          (stripBlockTimes b) := by
  induction bs with
  | nil => rfl
  | cons p rest ih =>
    obtain ⟨kk, v⟩ := p
    by_cases hk : kk = i
    · subst hk
      simp [setBlock]
    · simp only [setBlock, if_neg hk, List.map_cons]
      rw [ih]

/-- C8 counterexample: two invocations of `updateBlockContent` with the
same input document and the same arguments but different ambient clock
readings produce different output Documents (the timestamps differ), and
no ID generation is involved in `updateBlockContent` at all. -/
theorem C8_counterexample :
    updateBlockContent hwDoc "b0" [⟨"x", []⟩] 5
      ≠ updateBlockContent hwDoc "b0" [⟨"x", []⟩] 6 := by
  decide

/-- C8 (amended): the operations are pure in their Document input once
the ambient effects are explicit — with the generated identifier fixed,
two invocations of `updateBlockContent` or `splitBlock` on the same
document with the same arguments agree on the returned identifier and on
the whole output Document up to clock-derived timestamps. -/
theorem C8_determinism (doc : Document) (bid nid : BlockId)
    (c : List RichText) (k n₁ n₂ : Nat) :
    stripDocTimes (updateBlockContent doc bid c n₁)
      = stripDocTimes (updateBlockContent doc bid c n₂) ∧
    (splitBlock doc bid k n₁ nid).1 = (splitBlock doc bid k n₂ nid).1 ∧
    stripDocTimes (splitBlock doc bid k n₁ nid).2
      = stripDocTimes (splitBlock doc bid k n₂ nid).2 := by
  refine ⟨?_, ?_, ?_⟩
  · cases h : getBlock doc.blocks bid with
    | none => simp only [updateBlockContent, h]
    | some b =>
      simp only [updateBlockContent, h, isTextBearing_eq_true, if_true]
      simp only [stripDocTimes, map_strip_setBlock]
      simp only [stripBlockTimes]
  · cases h : getBlock doc.blocks bid with
    | none => simp only [splitBlock, h]
    | some b =>
      simp only [splitBlock, h, isTextBearing_eq_true, if_true]
      cases hidx : jsIndexOf doc.rootBlockIds bid with
      | none => simp only [hidx]
      | some ci => simp only [hidx]
  · cases h : getBlock doc.blocks bid with
    | none => simp only [splitBlock, h]
    | some b =>
      simp only [splitBlock, h, isTextBearing_eq_true, if_true]
      cases hidx : jsIndexOf doc.rootBlockIds bid with
      | none => simp only [hidx]
      | some ci =>
        simp only [hidx]
        simp only [stripDocTimes, map_strip_setBlock]
        simp only [stripBlockTimes, createParagraphBlock]

/-- C9: the batching scenario on the history slice.  Three text-edit
commits on `b1` within the quiet interval followed by a text-edit commit
on `b2` and the deadline elapse do produce exactly two committed entries
— but both entries snapshot the live document at their flush times, which
is the post-`b2` document in both cases (the first flush happens at the
`b2` commit, after the `b2` edit was applied), and a single undo restores
that post-`b2` document, not the state before the first `b1` edit
(`duoDoc`). -/
theorem C9_batching_undo_bug :
    histScenario.history.entries.length = 2 ∧
    histScenario.history.entries.map (·.document) = [histD4, histD4] ∧
    histScenario.history.currentIndex = 1 ∧
    histScenario.pendingBatch = none ∧
    (undoHistory histScenario 600).document = histD4 ∧
    (undoHistory histScenario 600).history.currentIndex = 0 ∧
    histD4 ≠ duoDoc ∧
    (undoHistory histScenario 600).document ≠ duoDoc := by
  refine ⟨by decide, by decide, by decide, by decide, by decide, by decide,
    by decide, by decide⟩

end NotionEditor
